import Mathlib

/-!
Verification development for the ansible-inventory engine of `modules/host.py`.

The embedding mirrors the source module: `Host` models the `Host` class
(hostname, user, group set, variable bag), `Hosts` models the `Hosts`
registry, and the parser/serializer functions below each correspond to one
method of the source, named after it.  Python dictionaries are modelled as
insertion-ordered association lists, Python sets of strings as duplicate-free
lists in insertion order, and exceptions as `Except`.
-/

set_option linter.unusedVariables false

/-- A Python scalar value stored in a host's variable bag. -/
inductive PyVal where
  | str (s : String)
  | int (n : Int)
  | bool (b : Bool)
  | none
deriving DecidableEq

/-- Python truthiness of a scalar value (`if value:`). -/
def PyVal.truthy : PyVal → Bool
  | .str s => !(s == "")
  | .int n => !(n == 0)
  | .bool b => b
  | .none => false

/-- Python `f"{value}"` string conversion for the scalar values above. -/
def PyVal.pyStr : PyVal → String
  | .str s => s
  | .int n => toString n
  | .bool b => if b then "True" else "False"
  | .none => "None"

/-- `d.get(k)` on an insertion-ordered Python dict. -/
def dictGet (d : List (String × PyVal)) (k : String) : Option PyVal :=
  match d with
  | [] => Option.none
  | (k', v) :: t => if k' = k then some v else dictGet t k

/-- `d[k] = v` on an insertion-ordered Python dict: an existing key keeps its
position and gets the new value; a new key is appended at the end. -/
def dictSet (d : List (String × PyVal)) (k : String) (v : PyVal) : List (String × PyVal) :=
  match d with
  | [] => [(k, v)]
  | (k', v') :: t => if k' = k then (k, v) :: t else (k', v') :: dictSet t k v

/-- `del d[k]` on an insertion-ordered Python dict (keys are unique). -/
def dictDel (d : List (String × PyVal)) (k : String) : List (String × PyVal) :=
  d.filter (fun p => !(p.1 == k))

/-- `s.add(x)` on a Python set of strings modelled as a duplicate-free list in
insertion order. -/
def setInsert (l : List String) (x : String) : List String :=
  if x ∈ l then l else l ++ [x]

/-- Python `str.split(sep)` for a one-character separator (keeps empty parts). -/
def splitOnChar (sep : Char) : List Char → List (List Char)
  | [] => [[]]
  | c :: t =>
    match splitOnChar sep t with
    | [] => [[]]
    | r :: rs => if c == sep then [] :: r :: rs else (c :: r) :: rs

/-- Python `str.split(sep)` lifted to `String`. -/
def pySplit (s : String) (sep : Char) : List String :=
  (splitOnChar sep s.data).map String.mk

/-- Python `str.rstrip()`: drop trailing whitespace. -/
def pyRstrip (s : String) : String :=
  String.mk ((s.data.reverse.dropWhile Char.isWhitespace).reverse)

/-- Python `sep.join(parts)`. -/
def joinWith (sep : String) : List String → String
  | [] => ""
  | x :: xs => xs.foldl (fun acc y => acc ++ sep ++ y) x

/-- One pass of Python `str.replace(pat, rep)`: scan left to right, replacing
non-overlapping occurrences; `fuel` bounds the recursion and is instantiated
with the length of the scanned text, which the scan never exceeds. -/
def pyReplaceAux (pat rep : List Char) : Nat → List Char → List Char
  | 0, s => s
  | _ + 1, [] => []
  | fuel + 1, c :: t =>
    if pat.isPrefixOf (c :: t) then
      rep ++ pyReplaceAux pat rep fuel ((c :: t).drop pat.length)
    else
      c :: pyReplaceAux pat rep fuel t

/-- Python `s.replace(pat, rep)` for a non-empty pattern. -/
def pyReplace (s pat rep : String) : String :=
  if pat.data.isEmpty then s
  else String.mk (pyReplaceAux pat.data rep.data s.data.length s.data)

/-- The `Host` class of `modules/host.py`: one host of the inventory.
`groups` models a Python `Set[str]` as a duplicate-free insertion-ordered
list; `vars` models the `variables` attribute, a Python `Dict[str, Any]` in
insertion order (the source's attribute name is a reserved word in Lean). -/
structure Host where
  hostname : String
  user : String
  groups : List String
  vars : List (String × PyVal)
deriving DecidableEq

/-- `Host.__init__`: `user` defaults to `""`; an empty (falsy) `groups`
argument becomes `["ungrouped"]`; the groups are added to a fresh set and the
variables to a fresh dict. -/
def hostInit (hostname : String) (user : String) (groups : List String)
    (vs : List (String × PyVal)) : Host :=
  let groups := if groups.isEmpty then ["ungrouped"] else groups
  { hostname := hostname
    user := user
    groups := groups.foldl setInsert []
    vars := vs.foldl (fun d p => dictSet d p.1 p.2) [] }

/-- `Host.has_group`: true when the name is `"all"` or stored in the set. -/
def Host.has_group (h : Host) (group_name : String) : Bool :=
  group_name == "all" || h.groups.contains group_name

/-- `Host.add_group`: when the name is neither `"all"` nor `"ungrouped"` and
`"ungrouped"` is stored, `"ungrouped"` is removed; then the name is added. -/
def Host.add_group (h : Host) (group_name : String) : Host :=
  let groups :=
    if (group_name ≠ "all" ∧ group_name ≠ "ungrouped") ∧ "ungrouped" ∈ h.groups then
      h.groups.filter (fun g => !(g == "ungrouped"))
    else h.groups
  { h with groups := setInsert groups group_name }

/-- `Host.get_groups`: snapshot list of the stored group set. -/
def Host.get_groups (h : Host) : List String :=
  h.groups

/-- `Host.set_variable`. -/
def Host.set_variable (h : Host) (var_name : String) (value : PyVal) : Host :=
  { h with vars := dictSet h.vars var_name value }

/-- `Host.remove_variable`: `if self.variables.get(var_name): del ...` — the
key is deleted only when `get` returns a truthy value. -/
def Host.remove_variable (h : Host) (var_name : String) : Host :=
  if ((dictGet h.vars var_name).map PyVal.truthy).getD false then
    { h with vars := dictDel h.vars var_name }
  else h

/-- `Host._serialize_as_ini`: when `user` is truthy (non-empty) it is first
stored into the variable bag under `ansible_user` (a mutation of the host),
then the line `hostname k1=v1 k2=v2 ...` is produced from the bag in
insertion order.  Returns the line together with the mutated host. -/
def Host.serialize_as_ini (h : Host) : String × Host :=
  let h' :=
    if h.user = "" then h
    else { h with vars := dictSet h.vars "ansible_user" (PyVal.str h.user) }
  (joinWith " " (h'.hostname :: h'.vars.map (fun p => p.1 ++ "=" ++ p.2.pyStr)), h')

/-- Argument of `Hosts.add_host`: the source accepts a `Host` or a hostname
string. -/
inductive HostOrName where
  | host (h : Host)
  | name (s : String)
deriving DecidableEq

/-- The hostname by which `Host.__eq__` compares the argument against the
registry entries (a `Host` compares by its hostname, a string by itself). -/
def HostOrName.hostname : HostOrName → String
  | .host h => h.hostname
  | .name s => s

/-- `Host(hostname=host)` applied by `add_host` to a string argument;
a `Host` argument is used as is. -/
def HostOrName.toHost : HostOrName → Host
  | .host h => h
  | .name s => hostInit s "" [] []

/-- The `Hosts` class of `modules/host.py`: the inventory, an ordered list of
hosts. -/
structure Hosts where
  hosts : List Host
deriving DecidableEq

/-- `Hosts()` with no argument: the empty inventory. -/
def Hosts.empty : Hosts := ⟨[]⟩

/-- `hostname in self.hosts`: membership decided by `Host.__eq__`, which
compares hostnames only. -/
def Hosts.has_host (hs : Hosts) (hostname : String) : Bool :=
  hs.hosts.any (fun h => h.hostname == hostname)

/-- `Hosts.get_host`: the first stored host with the given hostname. -/
def Hosts.get_host (hs : Hosts) (hostname : String) : Option Host :=
  hs.hosts.find? (fun h => h.hostname == hostname)

/-- `Hosts.get_hosts`: the hosts whose *stored* group set contains
`group_name` (the source tests `group_name in host.groups`, it does not call
`has_group`). -/
def Hosts.get_hosts (hs : Hosts) (group_name : String) : List Host :=
  hs.hosts.filter (fun h => decide (group_name ∈ h.groups))

/-- `Hosts.get_groups`: the set of all group names stored across hosts,
modelled in first-appearance order. -/
def Hosts.get_groups (hs : Hosts) : List String :=
  hs.hosts.foldl (fun acc h => h.groups.foldl setInsert acc) []

/-- `Hosts.add_host`: a no-op when a host with the same hostname is already
present; otherwise the (possibly freshly constructed) host gets `user`
assigned, each group added through `add_group`, and is appended. -/
def Hosts.add_host (hs : Hosts) (host : HostOrName) (groups : List String)
    (user : String) : Hosts :=
  if hs.hosts.any (fun h => h.hostname == host.hostname) then hs
  else
    let h := host.toHost
    let h := { h with user := user }
    let h := groups.foldl Host.add_group h
    ⟨hs.hosts ++ [h]⟩

/-- `Hosts.filter`: an empty (falsy) group list yields an empty registry;
otherwise the registry holds the concatenation of the `get_hosts` results of
the requested groups (the source `extend`s a list, without deduplication). -/
def Hosts.filter (hs : Hosts) (groups : List String) : Hosts :=
  if groups.isEmpty then Hosts.empty
  else ⟨(groups.map (fun g => hs.get_hosts g)).flatten⟩

/-- `Hosts.merge_hosts` on a list of registries: each host not yet present by
hostname is added through `add_host` with its defaults (`groups=[]`,
`user="root"`). -/
def Hosts.merge_hosts (hs : Hosts) (others : List Hosts) : Hosts :=
  others.foldl
    (fun acc other =>
      other.hosts.foldl
        (fun acc h =>
          if acc.hosts.any (fun h₂ => h₂.hostname == h.hostname) then acc
          else acc.add_host (.host h) [] "root")
        acc)
    hs

/-- Mutation of the host object returned by `get_host`: the first stored host
with the given hostname is replaced by `f` of it. -/
def updateFirst (hostname : String) (f : Host → Host) : List Host → List Host
  | [] => []
  | h :: t => if h.hostname == hostname then f h :: t else h :: updateFirst hostname f t

/-- See `updateFirst`. -/
def Hosts.update_host (hs : Hosts) (hostname : String) (f : Host → Host) : Hosts :=
  ⟨updateFirst hostname f hs.hosts⟩

/-- A character accepted by the hostname pattern `[a-zA-Z0-9.-]`. -/
def isHostChar (c : Char) : Bool :=
  ('a' ≤ c && c ≤ 'z') || ('A' ≤ c && c ≤ 'Z') || ('0' ≤ c && c ≤ '9')
    || c == '.' || c == '-'

/-- `re.match` of `^\s*(?P<host>[a-zA-Z0-9.-]+)`: skip leading whitespace and
take a non-empty run of hostname characters. -/
def matchHostLine (line : String) : Option String :=
  let tok := (line.data.dropWhile Char.isWhitespace).takeWhile isHostChar
  if tok.isEmpty then Option.none else some (String.mk tok)

/-- `re.match` of `^\[(?P<section>[^\[\]]+)\]`: an opening bracket at the
start, a non-empty run of non-bracket characters, a closing bracket. -/
def matchSectionHeaderLine (line : String) : Option String :=
  match line.data with
  | '[' :: rest =>
    let sec := rest.takeWhile (fun c => !(c == '[') && !(c == ']'))
    let rest' := rest.dropWhile (fun c => !(c == '[') && !(c == ']'))
    if !sec.isEmpty && rest'.head? == some ']' then some (String.mk sec)
    else Option.none
  | _ => Option.none

/-- Python tuple unpacking `key, value = parts`: exactly two parts, otherwise
a `ValueError`. -/
def pyUnpack2 (parts : List String) : Except Unit (String × String) :=
  match parts with
  | [k, v] => Except.ok (k, v)
  | _ => Except.error ()

/-- One line of the loop body of `Hosts._load_from_ini`: a header line moves
the current-group cursor; a host line ensures the host exists (adding it with
`add_host`'s defaults), tags it with the current group, and sets one variable
per trailing `key=value` token, where the token is `split("=")` and unpacked
into exactly two parts. -/
def iniProcessLine (acc : Hosts × String) (line : String) : Except Unit (Hosts × String) := do
  let (hs, current_group) := acc
  let current_group := (matchSectionHeaderLine line).getD current_group
  match matchHostLine line with
  | Option.none => pure (hs, current_group)
  | some hostname =>
    let hs := if (hs.get_host hostname).isSome then hs
              else hs.add_host (.name hostname) [] "root"
    let hs := hs.update_host hostname (fun h => h.add_group current_group)
    match pySplit line ' ' with
    | [] => pure (hs, current_group)
    | _ :: host_variables =>
      let hs ← host_variables.foldlM
        (fun hs tok => do
          let (key, value) ← pyUnpack2 (pySplit tok '=')
          pure (hs.update_host hostname
            (fun h => h.set_variable key (PyVal.str (pyRstrip value)))))
        hs
      pure (hs, current_group)

/-- `Hosts._load_from_ini`, over the list of lines of the file: the
current-group cursor starts at `"ungrouped"`; a `ValueError` from unpacking a
variable token aborts the whole load. -/
def Hosts.load_from_ini (lines : List String) : Except Unit Hosts := do
  let r ← lines.foldlM iniProcessLine (Hosts.empty, "ungrouped")
  pure r.1

/-- `Hosts.load` specialised to one grouped-list (ini) source whose contents
are the given lines: parse it and merge the result into a fresh registry. -/
def Hosts.load1 (lines : List String) : Except Unit Hosts := do
  let parsed ← Hosts.load_from_ini lines
  pure (Hosts.empty.merge_hosts [parsed])

/-- One host's treatment inside a group pass of `Hosts._serialize_as_ini`:
members of the group are serialized (which mutates them), others are left
alone. -/
def iniGroupStep (group_name : String) (h : Host) : Host :=
  if group_name ∈ h.groups then (h.serialize_as_ini).2 else h

/-- One `for host in self.get_hosts(group_name)` pass of
`Hosts._serialize_as_ini`: the produced lines, and the registry with every
member of the group replaced by its mutated serialization result. -/
def Hosts.serialize_ini_group (hs : Hosts) (group_name : String) :
    List String × Hosts :=
  ((hs.get_hosts group_name).map (fun h => (h.serialize_as_ini).1),
   ⟨hs.hosts.map (iniGroupStep group_name)⟩)

/-- `Hosts._serialize_as_ini`: the `"ungrouped"` hosts first without a
header, then, per group name of `get_groups()` other than `"ungrouped"`, a
blank line, a `[group]` header and the group's member lines; lines joined by
newlines.  The mutated registry is returned alongside the text. -/
def iniSerStep (acc : List String × Hosts) (group_name : String) :
    List String × Hosts :=
  if group_name == "ungrouped" then acc
  else
    let p := acc.2.serialize_ini_group group_name
    (acc.1 ++ ["", "[" ++ group_name ++ "]"] ++ p.1, p.2)

def Hosts.serialize_as_ini (hs : Hosts) : String × Hosts :=
  let p0 := hs.serialize_ini_group "ungrouped"
  let r := p0.2.get_groups.foldl iniSerStep p0
  (joinWith "\n" r.1, r.2)

/-- Modelled from the pyyaml `SafeDumper` used by `Hosts._serialize_as_yaml`
(third-party library, not part of the repository): a string scalar is emitted
plain unless it is empty, would resolve to a YAML 1.1 null/bool, is all
digits (int-like), or holds a character outside the plain-safe set used in
this development; then it is single-quoted. -/
def yamlPlainUnsafe (s : String) : Bool :=
  s == "" ||
  ["null", "Null", "NULL", "~", "true", "True", "TRUE", "false", "False",
   "FALSE", "yes", "Yes", "YES", "no", "No", "NO", "on", "On", "ON",
   "off", "Off", "OFF"].contains s ||
  s.data.all (fun c => c.isDigit) ||
  s.data.any (fun c =>
    !(c.isAlphanum || c == '.' || c == '-' || c == '_' || c == ' '))

/-- The single-quote character (written by code point to keep the source
plain). -/
def singleQuote : String := String.mk [Char.ofNat 39]

/-- Modelled from pyyaml: render one string scalar, single-quoting it (with
quote doubling) when it cannot be emitted plain. -/
def yamlStrScalar (s : String) : String :=
  if yamlPlainUnsafe s then
    singleQuote ++ String.mk (s.data.foldr
      (fun c acc => if c == Char.ofNat 39 then Char.ofNat 39 :: Char.ofNat 39 :: acc
                    else c :: acc) []) ++ singleQuote
  else s

/-- Modelled from pyyaml: render one scalar value. -/
def yamlScalar : PyVal → String
  | .str s => yamlStrScalar s
  | .int n => toString n
  | .bool b => if b then "true" else "false"
  | .none => "null"

/-- Insertion into a key-sorted list (pyyaml dumps mappings with
`sort_keys=True`). -/
def insertByKey {α : Type} (le : String → String → Bool) (p : String × α) :
    List (String × α) → List (String × α)
  | [] => [p]
  | q :: t => if le p.1 q.1 then p :: q :: t else q :: insertByKey le p t

/-- Lexicographic comparison of strings by character code, the order `sorted`
uses on `str` keys. -/
def charListLe : List Char → List Char → Bool
  | [], _ => true
  | _ :: _, [] => false
  | a :: as, b :: bs =>
    if a.val < b.val then true
    else if b.val < a.val then false
    else charListLe as bs

/-- See `charListLe`. -/
def strLe (a b : String) : Bool := charListLe a.data b.data

/-- Sort an association list by key, as pyyaml's `sort_keys=True` does. -/
def sortByKey {α : Type} (l : List (String × α)) : List (String × α) :=
  l.foldl (fun acc p => insertByKey strLe p acc) []

/-- The value stored for one host under a group's `hosts` mapping by
`Hosts._serialize_as_yaml`: the variable bag when non-empty, `None` when the
bag is empty and `user` is falsy; when `user` is truthy and
`variables.get('ansible_user')` is falsy, `ansible_user` is written into the
entry — which is the host's own bag whenever the bag was non-empty, so the
host is mutated in that case.  Returns the entry and the (possibly mutated)
host. -/
def yamlHostEntry (h : Host) : Option (List (String × PyVal)) × Host :=
  if h.vars.isEmpty then
    if h.user == "" then (Option.none, h)
    else (some [("ansible_user", PyVal.str h.user)], h)
  else
    if !(h.user == "")
        && !(((dictGet h.vars "ansible_user").map PyVal.truthy).getD false) then
      let vars := dictSet h.vars "ansible_user" (PyVal.str h.user)
      (some vars, { h with vars := vars })
    else (some h.vars, h)

/-- One `for host in self.get_hosts(group_name)` pass of
`Hosts._serialize_as_yaml`: the `hosts` mapping of the group, and the
registry with each member replaced by its possibly mutated version. -/
def Hosts.yaml_group_pass (hs : Hosts) (group_name : String) :
    List (String × Option (List (String × PyVal))) × Hosts :=
  ((hs.get_hosts group_name).map (fun h => (h.hostname, (yamlHostEntry h).1)),
   ⟨hs.hosts.map (fun h =>
      if group_name ∈ h.groups then (yamlHostEntry h).2 else h)⟩)

/-- Modelled from pyyaml's block-style dump (indent 2, sorted keys) of the
`{group: {'hosts': {hostname: entry}}}` structure built by
`Hosts._serialize_as_yaml`: a `None` entry renders as `name: null`, an empty
mapping as `name: \x7b\x7d`, a non-empty mapping as `name:` followed by one
indented `key: value` line per pair, keys sorted. -/
def yamlDumpHost (entry : String × Option (List (String × PyVal))) : String :=
  match entry.2 with
  | Option.none => "    " ++ yamlStrScalar entry.1 ++ ": null\n"
  | some [] => "    " ++ yamlStrScalar entry.1 ++ ": \x7b\x7d\n"
  | some vars =>
    "    " ++ yamlStrScalar entry.1 ++ ":\n" ++
    String.join ((sortByKey vars).map
      (fun p => "      " ++ yamlStrScalar p.1 ++ ": " ++ yamlScalar p.2 ++ "\n"))

/-- See `yamlDumpHost`; one group of the dumped mapping. -/
def yamlDumpGroup (g : String × List (String × Option (List (String × PyVal)))) : String :=
  yamlStrScalar g.1 ++ ":\n  hosts:\n" ++ String.join ((sortByKey g.2).map yamlDumpHost)

/-- See `yamlDumpHost`; the whole dumped document. -/
def yamlDump (groups : List (String × List (String × Option (List (String × PyVal))))) :
    String :=
  String.join ((sortByKey groups).map yamlDumpGroup)

/-- `Hosts._serialize_as_yaml`: build the group mapping by iterating
`get_groups()` and `get_hosts(group)`, dump it, then post-process the text
with `.replace('null', '')`.  The registry mutated by the entry construction
is returned alongside the text. -/
def Hosts.serialize_as_yaml (hs : Hosts) : String × Hosts :=
  let r := hs.get_groups.foldl
    (fun (acc : List (String × List (String × Option (List (String × PyVal)))) × Hosts)
        group_name =>
      let p := acc.2.yaml_group_pass group_name
      (acc.1 ++ [(group_name, p.1)], p.2))
    ([], hs)
  (pyReplace (yamlDump r.1) "null" "", r.2)

/-- C1: refuted on the code — `get_hosts` tests membership in the *stored*
group set, so a registry whose only host carries the default `ungrouped` tag
yields nothing for `"all"`, even though `has_group "all"` is true for that
host. -/
theorem get_hosts_all_misses_untagged_host :
    (Hosts.mk [hostInit "h" "" [] []]).get_hosts "all" = [] ∧
    (hostInit "h" "" [] []).has_group "all" = true := by decide

/-- C3: the grouped-list parser splits a variable token on *every* `=` and
unpacks into exactly two names, so the token `a=b=c` raises a `ValueError`
and the whole load fails instead of yielding key `a`, value `b=c`. -/
theorem load_from_ini_multi_eq_token_fails :
    Hosts.load_from_ini ["h1 a=b=c"] = Except.error () := by rfl

/-- C7: the structured serializer post-processes the dumped text with
`.replace('null', '')`; on a registry with a host `h` whose variable `x` has
the string value `"null"` and a host `k` with an empty bag, the value of `x`
is corrupted to an empty quoted scalar and `k` renders as an empty scalar
(`k: ` with a trailing space), not as an empty-object marker. -/
theorem serialize_as_yaml_strips_null_values :
    ((Hosts.mk [hostInit "h" "" [] [("x", PyVal.str "null")],
                hostInit "k" "" [] []]).serialize_as_yaml).1
      = "ungrouped:\n  hosts:\n    h:\n      x: ''\n    k: \n" := by rfl

/-- C4 counterexample: `add_group "all"` does not evict `"ungrouped"`
although `"all"` is a name other than `"ungrouped"`. -/
theorem add_group_all_keeps_ungrouped :
    "ungrouped" ∈ ((hostInit "h" "" [] []).add_group "all").groups ∧
    ("all" : String) ≠ "ungrouped" := by decide

/-- C5 counterexample: a host stored in both requested groups appears twice
in the `filter` result; duplicates are not removed by hostname. -/
theorem filter_duplicates_host_in_two_groups :
    ((Hosts.mk [hostInit "h" "" ["a", "b"] []]).filter ["a", "b"]).hosts.map Host.hostname
      = ["h", "h"] := by decide

/-- C9 counterexample: a key present with the falsy value `""` is *not*
removed by `remove_variable` — the host is returned unchanged. -/
theorem remove_variable_keeps_falsy_value :
    dictGet (hostInit "h" "" [] [("k", PyVal.str "")]).vars "k" = some (PyVal.str "") ∧
    (hostInit "h" "" [] [("k", PyVal.str "")]).remove_variable "k"
      = hostInit "h" "" [] [("k", PyVal.str "")] := by decide

/-- C2 counterexample: parsing the grouped-list source `"h1"` through the
load path produces a record whose `user` is `"root"`, not the empty string,
because the parser creates records through `add_host`, whose `user` default
is `"root"`. -/
theorem load1_parsed_user_is_root :
    Hosts.load1 ["h1"] = Except.ok (Hosts.mk [Host.mk "h1" "root" ["ungrouped"] []]) ∧
    ("root" : String) ≠ "" := ⟨by rfl, by decide⟩

/-- C8 counterexample: for a host with a set user and one other variable, the
`ansible_user` token is emitted *after* the other variable's token (the
assignment appends the key at the end of the bag), not before it. -/
theorem serialize_as_ini_user_token_last :
    pySplit ((hostInit "h" "u" ["g"] [("a", PyVal.str "1")]).serialize_as_ini).1 ' '
      = ["h", "a=1", "ansible_user=u"] := by decide

theorem mem_setInsert (l : List String) (x y : String) :
    y ∈ setInsert l x ↔ y ∈ l ∨ y = x := by
  unfold setInsert
  by_cases h : x ∈ l
  · simp only [if_pos h]
    constructor
    · exact Or.inl
    · rintro (hy | rfl)
      · exact hy
      · exact h
  · simp [if_neg h]

theorem dictGet_dictSet_self (d : List (String × PyVal)) (k : String) (v : PyVal) :
    dictGet (dictSet d k v) k = some v := by
  induction d with
  | nil => simp [dictSet, dictGet]
  | cons p t ih =>
    obtain ⟨a, b⟩ := p
    by_cases h : a = k
    · simp [dictSet, dictGet, h]
    · simp [dictSet, dictGet, h, ih]

theorem dictGet_dictSet_absent (d : List (String × PyVal)) (k : String) (v : PyVal)
    (hab : dictGet d k = Option.none) : dictSet d k v = d ++ [(k, v)] := by
  induction d with
  | nil => simp [dictSet]
  | cons p t ih =>
    obtain ⟨a, b⟩ := p
    by_cases h : a = k
    · simp [dictGet, h] at hab
    · simp [dictGet, h] at hab
      simp [dictSet, h, ih hab]

theorem dictGet_dictDel (d : List (String × PyVal)) (k k' : String) :
    dictGet (dictDel d k) k' =
      if k' = k then Option.none else dictGet d k' := by
  induction d with
  | nil => simp [dictDel, dictGet]
  | cons p t ih =>
    obtain ⟨a, b⟩ := p
    by_cases hak : a = k
    · subst hak
      by_cases hk : k' = a
      · subst hk
        simpa [dictDel, dictGet] using ih
      · simp [dictDel, dictGet, hk, Ne.symm hk] at ih ⊢
        simpa [hk] using ih
    · by_cases hk : k' = a
      · subst hk
        have : ¬ k' = k := fun h => hak (h ▸ rfl)
        simp [dictDel, dictGet, hak, this]
      · have hka : ¬ a = k' := fun hq => hk hq.symm
        simp [dictDel, dictGet, hak, hka]
        exact ih

/-- C9 (amended): `remove_variable key` deletes `key` exactly when it is
present with a *truthy* value, and leaves every other key untouched; when the
key is absent, or present with a falsy value (empty string, `0`, `False`,
`None`), the bag is unchanged. -/
theorem remove_variable_get (h : Host) (k k' : String) :
    dictGet (h.remove_variable k).vars k' =
      if k' = k ∧ ((dictGet h.vars k).map PyVal.truthy).getD false = true then
        Option.none
      else dictGet h.vars k' := by
  by_cases hb : ((dictGet h.vars k).map PyVal.truthy).getD false = true
  · by_cases hk : k' = k
    · simp [Host.remove_variable, hb, hk, dictGet_dictDel]
    · simp [Host.remove_variable, hb, hk, dictGet_dictDel]
  · simp only [Bool.not_eq_true] at hb
    simp [Host.remove_variable, hb]

theorem ungrouped_not_mem_add_group (h : Host) (g : String)
    (hga : g ≠ "all") (hgu : g ≠ "ungrouped") :
    "ungrouped" ∉ (h.add_group g).groups := by
  by_cases hu : "ungrouped" ∈ h.groups
  · have hc : (g ≠ "all" ∧ g ≠ "ungrouped") ∧ "ungrouped" ∈ h.groups := ⟨⟨hga, hgu⟩, hu⟩
    simp only [Host.add_group, if_pos hc, mem_setInsert, List.mem_filter]
    rintro (⟨_, hne⟩ | hne)
    · simp at hne
    · exact hgu hne.symm
  · have hc : ¬ ((g ≠ "all" ∧ g ≠ "ungrouped") ∧ "ungrouped" ∈ h.groups) :=
      fun hc => hu hc.2
    simp only [Host.add_group, if_neg hc, mem_setInsert]
    rintro (hne | hne)
    · exact hu hne
    · exact hgu hne.symm

theorem ungrouped_mem_add_group_all (h : Host) :
    "ungrouped" ∈ (h.add_group "all").groups ↔ "ungrouped" ∈ h.groups := by
  have hc : ¬ ((("all" : String) ≠ "all" ∧ ("all" : String) ≠ "ungrouped")
      ∧ "ungrouped" ∈ h.groups) := by simp
  simp [Host.add_group, if_neg hc, mem_setInsert]

theorem ungrouped_not_mem_foldl_add_group (h : Host) (gs : List String)
    (hgs : "ungrouped" ∉ gs) (hu : "ungrouped" ∉ h.groups) :
    "ungrouped" ∉ (gs.foldl Host.add_group h).groups := by
  induction gs generalizing h with
  | nil => exact hu
  | cons g t ih =>
    have hg : g ≠ "ungrouped" := fun hq => hgs (hq ▸ List.mem_cons_self g t)
    have ht : "ungrouped" ∉ t := fun hq => hgs (List.mem_cons_of_mem g hq)
    refine ih _ ht ?_
    have hc : ¬ ((g ≠ "all" ∧ g ≠ "ungrouped") ∧ "ungrouped" ∈ h.groups) :=
      fun hc => hu hc.2
    simp only [Host.add_group, if_neg hc, mem_setInsert]
    rintro (hne | hne)
    · exact hu hne
    · exact hg hne.symm

theorem ungrouped_mem_foldl_add_group (h : Host) (gs : List String)
    (hgs : "ungrouped" ∉ gs) (hu : "ungrouped" ∈ h.groups) :
    ("ungrouped" ∈ (gs.foldl Host.add_group h).groups ↔ ∀ g ∈ gs, g = "all") := by
  induction gs generalizing h with
  | nil => simpa using hu
  | cons g t ih =>
    have hg : g ≠ "ungrouped" := fun hq => hgs (hq ▸ List.mem_cons_self g t)
    have ht : "ungrouped" ∉ t := fun hq => hgs (List.mem_cons_of_mem g hq)
    by_cases hga : g = "all"
    · subst hga
      have step : "ungrouped" ∈ (h.add_group "all").groups :=
        (ungrouped_mem_add_group_all h).mpr hu
      simpa using ih (h.add_group "all") ht step
    · have step : "ungrouped" ∉ (h.add_group g).groups :=
        ungrouped_not_mem_add_group h g hga hg
      have final : "ungrouped" ∉ ((t.foldl Host.add_group (h.add_group g)).groups) :=
        ungrouped_not_mem_foldl_add_group _ t ht step
      simp only [List.foldl_cons]
      constructor
      · exact fun hq => absurd hq final
      · intro hall
        exact absurd (hall g (List.mem_cons_self g t)) hga

/-- C4 (amended): `add_group` evicts `"ungrouped"` only for names other than
both `"ungrouped"` and `"all"`; hence for a freshly created (ungrouped)
record to which groups are added, none of them the literal `"ungrouped"`,
the `"ungrouped"` tag remains present exactly when every added group is
`"all"`. -/
theorem fresh_host_ungrouped_iff_only_all (n : String) (gs : List String)
    (hgs : "ungrouped" ∉ gs) :
    ("ungrouped" ∈ (gs.foldl Host.add_group (hostInit n "" [] [])).groups ↔
      ∀ g ∈ gs, g = "all") := by
  refine ungrouped_mem_foldl_add_group _ gs hgs ?_
  simp [hostInit, setInsert]

/-- Witness for C4's amended theorem at a concrete input. -/
theorem fresh_host_ungrouped_iff_only_all_witness :
    ("ungrouped" ∈ (["dev", "web"].foldl Host.add_group (hostInit "h" "" [] [])).groups ↔
      ∀ g ∈ ["dev", "web"], g = "all") :=
  fresh_host_ungrouped_iff_only_all "h" ["dev", "web"] (by decide)

/-- C5 (amended): `filter` returns the concatenation of the `get_hosts`
results of the requested groups — its size is the *sum* of the group result
sizes, so a host stored in several requested groups appears once per group
(duplicates are not removed); its members are exactly the hosts belonging to
some requested group; and an empty request yields the empty registry (the
sum over no groups being zero). -/
theorem filter_is_concat_of_group_results (hs : Hosts) (gs : List String) :
    (hs.filter gs).hosts.length = (gs.map (fun g => (hs.get_hosts g).length)).sum ∧
    ∀ h : Host, h ∈ (hs.filter gs).hosts ↔ ∃ g ∈ gs, h ∈ hs.get_hosts g := by
  by_cases he : gs.isEmpty
  · have hnil : gs = [] := List.isEmpty_iff.mp he
    subst hnil
    simp [Hosts.filter, Hosts.empty]
  · have hne : gs ≠ [] := by simpa using he
    constructor
    · simp only [Hosts.filter, List.isEmpty_eq_true, hne, if_false, if_neg hne,
        List.length_flatten, List.map_map]
      rfl
    · intro h
      simp [Hosts.filter, he, hne, List.mem_flatten]

theorem add_group_hostname (h : Host) (g : String) :
    (h.add_group g).hostname = h.hostname := rfl

theorem foldl_add_group_hostname (gs : List String) (h : Host) :
    (gs.foldl Host.add_group h).hostname = h.hostname := by
  induction gs generalizing h with
  | nil => rfl
  | cons g t ih => simpa [add_group_hostname] using ih (h.add_group g)

theorem toHost_hostname (x : HostOrName) : x.toHost.hostname = x.hostname := by
  cases x <;> rfl

/-- C6: `add_host` is idempotent — once a record with a hostname is present,
a second `add_host` with that hostname (whatever host object, groups or user
are passed) leaves the registry exactly as it was, so size and the existing
record's user, groups and variables are all unchanged. -/
theorem add_host_idempotent (hs : Hosts) (x y : HostOrName)
    (gs gs' : List String) (u u' : String) (hxy : y.hostname = x.hostname) :
    (hs.add_host x gs u).add_host y gs' u' = hs.add_host x gs u := by
  by_cases hmem : hs.hosts.any (fun h => h.hostname == x.hostname) = true
  · have h1 : hs.add_host x gs u = hs := by simp [Hosts.add_host, hmem]
    rw [h1]
    have hmem' : hs.hosts.any (fun h => h.hostname == y.hostname) = true := by
      rw [hxy]; exact hmem
    simp [Hosts.add_host, hmem']
  · have h1 : hs.add_host x gs u
        = ⟨hs.hosts ++ [gs.foldl Host.add_group { x.toHost with user := u }]⟩ := by
      simp [Hosts.add_host, hmem]
    have hname : (gs.foldl Host.add_group { x.toHost with user := u }).hostname
        = x.hostname := by
      rw [foldl_add_group_hostname]
      exact toHost_hostname x
    rw [h1]
    have hmem' : (hs.hosts ++ [gs.foldl Host.add_group { x.toHost with user := u }]).any
        (fun h => h.hostname == y.hostname) = true := by
      simp [List.any_append, hname, hxy]
    simp [Hosts.add_host, hmem']

/-- Witness for C6 at a concrete input. -/
theorem add_host_idempotent_witness :
    (Hosts.empty.add_host (.name "h") ["web"] "root").add_host (.name "h") [] "alice"
      = Hosts.empty.add_host (.name "h") ["web"] "root" :=
  add_host_idempotent Hosts.empty (.name "h") (.name "h") ["web"] [] "root" "alice" rfl

/-- C8 (amended): for a record with a non-empty user whose bag does not yet
hold `ansible_user`, the grouped-list line is the hostname followed by the
tokens of the record's other variables and *then* the `ansible_user` token —
the assignment appends the new key at the end of the insertion-ordered bag,
so the token comes after the others, not before them. -/
theorem serialize_as_ini_appends_user_token (h : Host)
    (hu : h.user ≠ "") (habs : dictGet h.vars "ansible_user" = Option.none) :
    (h.serialize_as_ini).1 =
      joinWith " " (h.hostname :: (h.vars.map (fun p => p.1 ++ "=" ++ p.2.pyStr)
        ++ ["ansible_user=" ++ h.user])) := by
  have hlit : ("ansible_user" : String) ++ "=" ++ h.user = "ansible_user=" ++ h.user := by
    rw [show ("ansible_user" : String) ++ "=" = "ansible_user=" from rfl]
  simp only [Host.serialize_as_ini, if_neg hu, dictGet_dictSet_absent _ _ _ habs,
    List.map_append, List.map_cons, List.map_nil, PyVal.pyStr, hlit]

/-- Witness for C8's amended theorem at a concrete input. -/
theorem serialize_as_ini_appends_user_token_witness :
    ((hostInit "h" "u" [] [("a", PyVal.str "1")]).serialize_as_ini).1 =
      joinWith " " ((hostInit "h" "u" [] [("a", PyVal.str "1")]).hostname ::
        ((hostInit "h" "u" [] [("a", PyVal.str "1")]).vars.map
            (fun p => p.1 ++ "=" ++ p.2.pyStr)
          ++ ["ansible_user=" ++ (hostInit "h" "u" [] [("a", PyVal.str "1")]).user])) :=
  serialize_as_ini_appends_user_token _ (by decide) (by decide)

theorem add_group_user (h : Host) (g : String) : (h.add_group g).user = h.user := rfl

theorem foldl_add_group_user (gs : List String) (h : Host) :
    (gs.foldl Host.add_group h).user = h.user := by
  induction gs generalizing h with
  | nil => rfl
  | cons g t ih => simpa [add_group_user] using ih (h.add_group g)

theorem add_host_users_root (hs : Hosts) (x : HostOrName) (gs : List String)
    (inv : ∀ h ∈ hs.hosts, h.user = "root") :
    ∀ h ∈ (hs.add_host x gs "root").hosts, h.user = "root" := by
  intro h hm
  by_cases hmem : hs.hosts.any (fun h₂ => h₂.hostname == x.hostname) = true
  · simp only [Hosts.add_host, if_pos hmem] at hm
    exact inv h hm
  · simp only [Hosts.add_host, if_neg hmem, List.mem_append,
      List.mem_singleton] at hm
    rcases hm with hm | rfl
    · exact inv h hm
    · rw [foldl_add_group_user]

theorem merge_fold_users_root (l : List Host) (hs : Hosts)
    (inv : ∀ h ∈ hs.hosts, h.user = "root") :
    ∀ h ∈ (l.foldl
        (fun acc h =>
          if acc.hosts.any (fun h₂ => h₂.hostname == h.hostname) then acc
          else acc.add_host (.host h) [] "root") hs).hosts,
      h.user = "root" := by
  induction l generalizing hs with
  | nil => exact inv
  | cons a t ih =>
    intro h hm
    refine ih _ ?_ h hm
    by_cases hc : hs.hosts.any (fun h₂ => h₂.hostname == a.hostname) = true
    · simpa [hc] using inv
    · simpa [hc] using add_host_users_root hs (.host a) [] inv

theorem merge_hosts_users_root (hs : Hosts) (others : List Hosts)
    (inv : ∀ h ∈ hs.hosts, h.user = "root") :
    ∀ h ∈ (hs.merge_hosts others).hosts, h.user = "root" := by
  unfold Hosts.merge_hosts
  induction others generalizing hs with
  | nil => exact inv
  | cons o t ih =>
    intro h hm
    exact ih _ (merge_fold_users_root o.hosts hs inv) h hm

/-- C2 (amended): every record produced by loading a grouped-list source has
user `"root"` — the load path creates records through `add_host`, whose
`user` default is `"root"`, and the final merge passes `"root"` again — so
the `"root"` default *does* apply to parsed records, not only to records
added directly by a client. -/
theorem load1_users_are_root (lines : List String) (hs : Hosts)
    (hld : Hosts.load1 lines = Except.ok hs) :
    ∀ h ∈ hs.hosts, h.user = "root" := by
  unfold Hosts.load1 at hld
  cases hpe : Hosts.load_from_ini lines with
  | error e => rw [hpe] at hld; cases hld
  | ok parsed =>
    rw [hpe] at hld
    have hmg : Hosts.empty.merge_hosts [parsed] = hs := by
      simpa [bind, Except.bind, pure, Except.pure] using hld
    rw [← hmg]
    exact merge_hosts_users_root Hosts.empty [parsed] (by simp [Hosts.empty])

/-- Witness for C2's amended theorem at a concrete input. -/
theorem load1_users_are_root_witness :
    (Host.mk "h1" "root" ["ungrouped"] []).user = "root" :=
  load1_users_are_root ["h1"] (Hosts.mk [Host.mk "h1" "root" ["ungrouped"] []])
    (by rfl) (Host.mk "h1" "root" ["ungrouped"] []) (by simp)

theorem serialize_as_ini_snd_hostname (h : Host) :
    (h.serialize_as_ini).2.hostname = h.hostname := by
  simp only [Host.serialize_as_ini]
  split <;> rfl

theorem serialize_as_ini_snd_user (h : Host) :
    (h.serialize_as_ini).2.user = h.user := by
  simp only [Host.serialize_as_ini]
  split <;> rfl

theorem serialize_as_ini_snd_groups (h : Host) :
    (h.serialize_as_ini).2.groups = h.groups := by
  simp only [Host.serialize_as_ini]
  split <;> rfl

theorem serialize_as_ini_snd_ansible_user (h : Host) (hu : h.user ≠ "") :
    dictGet (h.serialize_as_ini).2.vars "ansible_user" = some (PyVal.str h.user) := by
  simp only [Host.serialize_as_ini, if_neg hu]
  exact dictGet_dictSet_self _ _ _

theorem iniGroupStep_hostname (g : String) (h : Host) :
    (iniGroupStep g h).hostname = h.hostname := by
  unfold iniGroupStep
  split
  · exact serialize_as_ini_snd_hostname h
  · rfl

theorem iniGroupStep_user (g : String) (h : Host) :
    (iniGroupStep g h).user = h.user := by
  unfold iniGroupStep
  split
  · exact serialize_as_ini_snd_user h
  · rfl

theorem iniGroupStep_groups (g : String) (h : Host) :
    (iniGroupStep g h).groups = h.groups := by
  unfold iniGroupStep
  split
  · exact serialize_as_ini_snd_groups h
  · rfl

theorem iniGroupStep_ansible_user_hit (g : String) (h : Host)
    (hu : h.user ≠ "") (hg : g ∈ h.groups) :
    dictGet (iniGroupStep g h).vars "ansible_user" = some (PyVal.str h.user) := by
  unfold iniGroupStep
  rw [if_pos hg]
  exact serialize_as_ini_snd_ansible_user h hu

theorem iniGroupStep_ansible_user_keep (g : String) (h : Host) (hu : h.user ≠ "")
    (hq : dictGet h.vars "ansible_user" = some (PyVal.str h.user)) :
    dictGet (iniGroupStep g h).vars "ansible_user" = some (PyVal.str h.user) := by
  unfold iniGroupStep
  split
  · exact serialize_as_ini_snd_ansible_user h hu
  · exact hq

theorem iniFoldState_hosts (gs : List String) (acc : List String × Hosts) :
    ((gs.foldl iniSerStep acc).2).hosts
      = gs.foldl
          (fun l g => if g == "ungrouped" then l else l.map (iniGroupStep g))
          acc.2.hosts := by
  induction gs generalizing acc with
  | nil => rfl
  | cons g t ih =>
    by_cases hg : (g == "ungrouped") = true
    · simp only [List.foldl_cons, iniSerStep, if_pos hg]
      exact ih acc
    · simp only [List.foldl_cons, iniSerStep, if_neg hg]
      exact ih _

theorem iniFoldHosts_map (gs : List String) (l : List Host) :
    gs.foldl (fun l g => if g == "ungrouped" then l else l.map (iniGroupStep g)) l
      = l.map (fun h =>
          gs.foldl (fun h g => if g == "ungrouped" then h else iniGroupStep g h) h) := by
  induction gs generalizing l with
  | nil => simp
  | cons g t ih =>
    by_cases hg : (g == "ungrouped") = true
    · simp only [List.foldl_cons, if_pos hg]
      exact ih l
    · simp only [List.foldl_cons, if_neg hg, ih, List.map_map]
      rfl

theorem iniPerHost_user (gs : List String) (h : Host) :
    (gs.foldl (fun h g => if g == "ungrouped" then h else iniGroupStep g h) h).user
      = h.user := by
  induction gs generalizing h with
  | nil => rfl
  | cons g t ih =>
    by_cases hg : (g == "ungrouped") = true
    · simpa only [List.foldl_cons, if_pos hg] using ih h
    · simp only [List.foldl_cons, if_neg hg]
      rw [ih, iniGroupStep_user]

theorem iniPerHost_hostname (gs : List String) (h : Host) :
    (gs.foldl (fun h g => if g == "ungrouped" then h else iniGroupStep g h) h).hostname
      = h.hostname := by
  induction gs generalizing h with
  | nil => rfl
  | cons g t ih =>
    by_cases hg : (g == "ungrouped") = true
    · simpa only [List.foldl_cons, if_pos hg] using ih h
    · simp only [List.foldl_cons, if_neg hg]
      rw [ih, iniGroupStep_hostname]

theorem iniPerHost_ansible_user_keep (gs : List String) (h : Host) (hu : h.user ≠ "")
    (hq : dictGet h.vars "ansible_user" = some (PyVal.str h.user)) :
    dictGet
        (gs.foldl (fun h g => if g == "ungrouped" then h else iniGroupStep g h) h).vars
        "ansible_user"
      = some (PyVal.str h.user) := by
  induction gs generalizing h with
  | nil => exact hq
  | cons g t ih =>
    by_cases hg : (g == "ungrouped") = true
    · simpa only [List.foldl_cons, if_pos hg] using ih h hu hq
    · simp only [List.foldl_cons, if_neg hg]
      have hu' : (iniGroupStep g h).user ≠ "" := by rw [iniGroupStep_user]; exact hu
      have hq' : dictGet (iniGroupStep g h).vars "ansible_user"
          = some (PyVal.str (iniGroupStep g h).user) := by
        rw [iniGroupStep_user]
        exact iniGroupStep_ansible_user_keep g h hu hq
      have := ih (iniGroupStep g h) hu' hq'
      rwa [iniGroupStep_user] at this

theorem iniPerHost_ansible_user_hit (gs : List String) (h : Host) (hu : h.user ≠ "")
    (hw : ∃ g ∈ gs, g ≠ "ungrouped" ∧ g ∈ h.groups) :
    dictGet
        (gs.foldl (fun h g => if g == "ungrouped" then h else iniGroupStep g h) h).vars
        "ansible_user"
      = some (PyVal.str h.user) := by
  induction gs generalizing h with
  | nil => exact absurd hw (by simp)
  | cons g t ih =>
    obtain ⟨g₀, hg₀m, hg₀u, hg₀g⟩ := hw
    rcases List.mem_cons.mp hg₀m with rfl | hg₀t
    · have hg : ¬ ((g₀ == "ungrouped") = true) := by simpa using hg₀u
      simp only [List.foldl_cons, if_neg hg]
      have hq : dictGet (iniGroupStep g₀ h).vars "ansible_user"
          = some (PyVal.str (iniGroupStep g₀ h).user) := by
        rw [iniGroupStep_user]
        exact iniGroupStep_ansible_user_hit g₀ h hu hg₀g
      have hu' : (iniGroupStep g₀ h).user ≠ "" := by rw [iniGroupStep_user]; exact hu
      have := iniPerHost_ansible_user_keep t (iniGroupStep g₀ h) hu' hq
      rwa [iniGroupStep_user] at this
    · by_cases hg : (g == "ungrouped") = true
      · simp only [List.foldl_cons, if_pos hg]
        exact ih h hu ⟨g₀, hg₀t, hg₀u, hg₀g⟩
      · simp only [List.foldl_cons, if_neg hg]
        have hu' : (iniGroupStep g h).user ≠ "" := by rw [iniGroupStep_user]; exact hu
        have hg' : g₀ ∈ (iniGroupStep g h).groups := by
          rw [iniGroupStep_groups]; exact hg₀g
        have := ih (iniGroupStep g h) hu' ⟨g₀, hg₀t, hg₀u, hg'⟩
        rwa [iniGroupStep_user] at this

theorem mem_foldl_setInsert_of_mem_acc (l : List String) (acc : List String)
    (x : String) (hx : x ∈ acc) : x ∈ l.foldl setInsert acc := by
  induction l generalizing acc with
  | nil => exact hx
  | cons a t ih => exact ih _ ((mem_setInsert acc a x).mpr (Or.inl hx))

theorem mem_foldl_setInsert_of_mem (l : List String) (acc : List String)
    (x : String) (hx : x ∈ l) : x ∈ l.foldl setInsert acc := by
  induction l generalizing acc with
  | nil => cases hx
  | cons a t ih =>
    rcases List.mem_cons.mp hx with rfl | hxt
    · exact mem_foldl_setInsert_of_mem_acc t _ x ((mem_setInsert acc x x).mpr (Or.inr rfl))
    · exact ih _ hxt

theorem mem_groupsFold_of_mem_acc (l : List Host) (acc : List String) (x : String)
    (hx : x ∈ acc) :
    x ∈ l.foldl (fun acc h => h.groups.foldl setInsert acc) acc := by
  induction l generalizing acc with
  | nil => exact hx
  | cons a t ih => exact ih _ (mem_foldl_setInsert_of_mem_acc a.groups acc x hx)

theorem mem_get_groups_of_mem (hs : Hosts) (h : Host) (g : String)
    (hh : h ∈ hs.hosts) (hg : g ∈ h.groups) : g ∈ hs.get_groups := by
  unfold Hosts.get_groups
  revert hh
  generalize ([] : List String) = acc
  induction hs.hosts generalizing acc with
  | nil => intro hh; cases hh
  | cons a t ih =>
    intro hh
    rcases List.mem_cons.mp hh with rfl | hht
    · exact mem_groupsFold_of_mem_acc t _ g (mem_foldl_setInsert_of_mem h.groups acc g hg)
    · exact ih _ hht

theorem serialize_as_ini_hosts_decomposed (hs : Hosts) :
    ((hs.serialize_as_ini).2).hosts
      = hs.hosts.map (fun h =>
          ((Hosts.mk (hs.hosts.map (iniGroupStep "ungrouped"))).get_groups).foldl
            (fun h g => if g == "ungrouped" then h else iniGroupStep g h)
            (iniGroupStep "ungrouped" h)) := by
  show ((((hs.serialize_ini_group "ungrouped").2).get_groups.foldl iniSerStep
      (hs.serialize_ini_group "ungrouped")).2).hosts = _
  rw [iniFoldState_hosts]
  show ((hs.serialize_ini_group "ungrouped").2).get_groups.foldl
      (fun l g => if g == "ungrouped" then l else l.map (iniGroupStep g))
      (hs.hosts.map (iniGroupStep "ungrouped")) = _
  rw [iniFoldHosts_map, List.map_map]
  rfl

/-- C10: serializing a registry in the grouped-list (ini) format is not
read-only — every stored record with a non-empty user that belongs to at
least one stored group (every record starts with `"ungrouped"`, so the group
set is non-empty unless explicitly emptied) comes out of the call with
`ansible_user` bound to its user in its variable bag, where every later
serialization of any format will render it. -/
theorem serialize_as_ini_inserts_ansible_user (hs : Hosts) (i : Nat)
    (hi : i < hs.hosts.length)
    (hu : (hs.hosts.get ⟨i, hi⟩).user ≠ "")
    (hg : (hs.hosts.get ⟨i, hi⟩).groups ≠ []) :
    ∃ hl : i < ((hs.serialize_as_ini).2).hosts.length,
      (((hs.serialize_as_ini).2).hosts.get ⟨i, hl⟩).hostname
          = (hs.hosts.get ⟨i, hi⟩).hostname ∧
      dictGet (((hs.serialize_as_ini).2).hosts.get ⟨i, hl⟩).vars "ansible_user"
        = some (PyVal.str ((hs.hosts.get ⟨i, hi⟩).user)) := by
  have hdec := serialize_as_ini_hosts_decomposed hs
  have hl : i < ((hs.serialize_as_ini).2).hosts.length := by
    rw [hdec, List.length_map]; exact hi
  refine ⟨hl, ?_⟩
  have hgeteq : ((hs.serialize_as_ini).2).hosts.get ⟨i, hl⟩
      = ((Hosts.mk (hs.hosts.map (iniGroupStep "ungrouped"))).get_groups).foldl
          (fun h g => if g == "ungrouped" then h else iniGroupStep g h)
          (iniGroupStep "ungrouped" (hs.hosts.get ⟨i, hi⟩)) := by
    have hl' : i < (hs.hosts.map (fun h =>
        ((Hosts.mk (hs.hosts.map (iniGroupStep "ungrouped"))).get_groups).foldl
          (fun h g => if g == "ungrouped" then h else iniGroupStep g h)
          (iniGroupStep "ungrouped" h))).length := by
      rw [List.length_map]; exact hi
    have : ((hs.serialize_as_ini).2).hosts.get ⟨i, hl⟩
        = (hs.hosts.map (fun h =>
            ((Hosts.mk (hs.hosts.map (iniGroupStep "ungrouped"))).get_groups).foldl
              (fun h g => if g == "ungrouped" then h else iniGroupStep g h)
              (iniGroupStep "ungrouped" h))).get ⟨i, hl'⟩ := by
      congr 1
      exact (Fin.heq_ext_iff (by rw [hdec])).mpr rfl
    rw [this]
    simp [List.get_eq_getElem]
  set h₀ := hs.hosts.get ⟨i, hi⟩ with hh₀
  set gset := (Hosts.mk (hs.hosts.map (iniGroupStep "ungrouped"))).get_groups with hgset
  have hmem : h₀ ∈ hs.hosts := List.get_mem hs.hosts i hi
  have hu0 : (iniGroupStep "ungrouped" h₀).user ≠ "" := by
    rw [iniGroupStep_user]; exact hu
  constructor
  · rw [hgeteq, iniPerHost_hostname, iniGroupStep_hostname]
  · rw [hgeteq]
    by_cases hung : "ungrouped" ∈ h₀.groups
    · have hq0 : dictGet (iniGroupStep "ungrouped" h₀).vars "ansible_user"
          = some (PyVal.str (iniGroupStep "ungrouped" h₀).user) := by
        rw [iniGroupStep_user]
        exact iniGroupStep_ansible_user_hit "ungrouped" h₀ hu hung
      have := iniPerHost_ansible_user_keep gset (iniGroupStep "ungrouped" h₀) hu0 hq0
      rwa [iniGroupStep_user] at this
    · obtain ⟨g₀, hg₀⟩ : ∃ g₀, g₀ ∈ h₀.groups := by
        cases hq : h₀.groups with
        | nil => exact absurd hq hg
        | cons a t => exact ⟨a, hq ▸ List.mem_cons_self a t⟩
      have hg₀u : g₀ ≠ "ungrouped" := fun hq => hung (hq ▸ hg₀)
      have hg₀gs : g₀ ∈ gset := by
        refine mem_get_groups_of_mem _ (iniGroupStep "ungrouped" h₀) g₀ ?_ ?_
        · exact List.mem_map_of_mem (iniGroupStep "ungrouped") hmem
        · rw [iniGroupStep_groups]; exact hg₀
      have hgrp0 : g₀ ∈ (iniGroupStep "ungrouped" h₀).groups := by
        rw [iniGroupStep_groups]; exact hg₀
      have := iniPerHost_ansible_user_hit gset (iniGroupStep "ungrouped" h₀) hu0
        ⟨g₀, hg₀gs, hg₀u, hgrp0⟩
      rwa [iniGroupStep_user] at this

/-- Witness for C10's theorem at a concrete input. -/
theorem serialize_as_ini_inserts_ansible_user_witness :
    ∃ hl : 0 < (((Hosts.mk [hostInit "h" "u" [] []]).serialize_as_ini).2).hosts.length,
      ((((Hosts.mk [hostInit "h" "u" [] []]).serialize_as_ini).2).hosts.get
          ⟨0, hl⟩).hostname
          = ((Hosts.mk [hostInit "h" "u" [] []]).hosts.get ⟨0, by decide⟩).hostname ∧
      dictGet ((((Hosts.mk [hostInit "h" "u" [] []]).serialize_as_ini).2).hosts.get
          ⟨0, hl⟩).vars "ansible_user"
        = some (PyVal.str
            (((Hosts.mk [hostInit "h" "u" [] []]).hosts.get ⟨0, by decide⟩).user)) :=
  serialize_as_ini_inserts_ansible_user (Hosts.mk [hostInit "h" "u" [] []]) 0
    (by decide) (by decide) (by decide)
